import Mathlib

/-!
Verification of robotnik_modbus_io: register polling and bit mapping

A shallow embedding of `src/robotnik_modbus_io_node.cpp` (class `modbusNode`).

Conventions of the embedding

* `uint16_t` values are natural numbers below `65536`; `int16_t` and `int`
  values are integers.  The conversions between them are `toUInt16` and
  `toInt16` (reduction modulo `2^16`, two's complement).
* `htobe16` / `htole16` come from the C library.  Their result depends on the
  byte order of the host, which is the parameter `hostBig` of the embedding.
* The Modbus device is outside the program.  A call of
  `modbus_read_registers(mb_, addr, 1, tab_reg_)` is represented by its reply
  (`ReadReply`): the returned `int` and the word stored into `tab_reg_[0]`
  when the call succeeded.  A call of `modbus_write_register` is represented
  by the returned `int`; the words handed to it are collected in the result.
* `ros::Time::now().toSec()` is represented by the value it returned.  Times
  are rational numbers: the embedding abstracts from the rounding of `double`.
-/

namespace Robotnik

/-! ## Machine integers -/

/-- Conversion of an integer to `uint16_t`. -/
def toUInt16 (z : Int) : Nat := (z % 65536).toNat

/-- Conversion of an unsigned value to `int16_t` (two's complement). -/
def toInt16 (n : Nat) : Int :=
  if n % 65536 < 32768 then ((n % 65536 : Nat) : Int) else ((n % 65536 : Nat) : Int) - 65536

/-- Exchange of the two bytes of a 16-bit word. -/
def bswap16 (w : Nat) : Nat := (w % 256) * 256 + (w / 256) % 256

/-- Host to big-endian: the identity on a big-endian host, a byte swap otherwise. -/
def htobe16 (hostBig : Bool) (w : Nat) : Nat := if hostBig then w % 65536 else bswap16 w

/-- Host to little-endian: a byte swap on a big-endian host, the identity otherwise. -/
def htole16 (hostBig : Bool) (w : Nat) : Nat := if hostBig then bswap16 w else w % 65536

/-! ## The node -/

/-- Message `robotnik_msgs::inputs_outputs` (the two channel arrays). -/
structure inputs_outputs where
  digital_inputs : List Bool
  digital_outputs : List Bool
deriving DecidableEq, Repr

/-- Data members of `modbusNode` that the polling cycle and the write services use,
together with the function-static `prevtime` of `read_and_publish`. -/
structure modbusNode where
  reading_ : inputs_outputs
  running_ : Bool
  digital_inputs_ : Int
  digital_outputs_ : Int
  digital_inputs_addr_ : Int
  digital_outputs_addr_ : Int
  big_endian_ : Bool
  error_count_ : Int
  slow_count_ : Int
  was_slow_ : String
  tab_reg_0 : Nat
  din_ : Nat
  dout_ : Nat
  max_delay_ : ℚ
  prevtime : ℚ
deriving DecidableEq

/-- Reply of `modbus_read_registers(mb_, addr, 1, tab_reg_)`: the returned value and the
word the device sent.  The word is stored in `tab_reg_[0]` only when the call returned `1`. -/
structure ReadReply where
  iret : Int
  word : Nat
deriving DecidableEq, Repr

/-- Method `std::vector::resize` on a fresh vector: `n` elements, value-initialised.  The
count is an `int`; a negative one makes the C++ call throw, and the statements below are about
counts that are not negative. -/
def resize (n : Int) : List Bool := List.replicate n.toNat false

/-- Constructor of `modbusNode`.  The parameters are the values obtained from the parameter
server; `tab0` is the content of the uninitialised `tab_reg_[0]`. -/
def modbusNode.init (digital_outputs digital_inputs digital_inputs_addr digital_outputs_addr : Int)
    (big_endian : Bool) (tab0 : Nat) : modbusNode :=
  { reading_ := { digital_inputs := resize digital_inputs,
                  digital_outputs := resize digital_outputs }
    running_ := false
    digital_inputs_ := digital_inputs
    digital_outputs_ := digital_outputs
    digital_inputs_addr_ := digital_inputs_addr
    digital_outputs_addr_ := digital_outputs_addr
    big_endian_ := big_endian
    error_count_ := 0
    slow_count_ := 0
    was_slow_ := ""
    tab_reg_0 := tab0 % 65536
    din_ := 0
    dout_ := 0
    max_delay_ := 1 / 10
    prevtime := 0 }

/-- Method `int16_t switchEndianness(int16_t reg)`. -/
def switchEndianness (hostBig big_endian_ : Bool) (reg : Int) : Int :=
  if big_endian_ then toInt16 (htobe16 hostBig (toUInt16 reg))
  else toInt16 (htole16 hostBig (toUInt16 reg))

/-- Method `void dealWithModbusError()`: a log line, no change of the node. -/
def dealWithModbusError (s : modbusNode) : modbusNode := s

/-- The loop `for (int i = ..; i < count; i++) { data[i] = x & 1; x >>= 1; }` of `getData`,
with `k` iterations left (`k = count - i`), `x` an `int16_t` (arithmetic right shift).
The arrays have `count` elements (see `sized`), so every index written is in range. -/
def decodeLoop : Nat → Nat → Int → List Bool → List Bool
  | 0, _, _, data => data
  | k + 1, i, x, data =>
      decodeLoop k (i + 1) (Int.shiftRight x 1) (data.set i (Int.land x 1 != 0))

/-- Call `modbus_read_registers(mb_, addr, 1, tab_reg_)` followed by the error report. -/
def readRegister (s : modbusNode) (r : ReadReply) : modbusNode :=
  let s1 := if r.iret = 1 then { s with tab_reg_0 := r.word % 65536 } else s
  if r.iret ≠ 1 then dealWithModbusError s1 else s1

/-- Method `void getData(robotnik_msgs::inputs_outputs& data)` applied to `reading_`. -/
def getData (hostBig : Bool) (s : modbusNode) (rIn rOut : ReadReply) : modbusNode :=
  let s1 := readRegister s rIn
  let x := switchEndianness hostBig s1.big_endian_ (toInt16 s1.tab_reg_0)
  let s2 := { s1 with din_ := toUInt16 x }
  let s3 := { s2 with reading_ := { s2.reading_ with
    digital_inputs := decodeLoop s2.digital_inputs_.toNat 0 x s2.reading_.digital_inputs } }
  let s4 := readRegister s3 rOut
  let y := switchEndianness hostBig s4.big_endian_ (toInt16 s4.tab_reg_0)
  let s5 := { s4 with dout_ := toUInt16 y }
  { s5 with reading_ := { s5.reading_ with
    digital_outputs := decodeLoop s5.digital_outputs_.toNat 0 y s5.reading_.digital_outputs } }

/-! ## The polling cycle -/

/-- What one call of `read_and_publish` leaves behind: the node, the snapshots handed to
`modbus_io_data_pub_.publish` (in order) and the returned `int`. -/
structure CycleResult where
  node : modbusNode
  published : List inputs_outputs
  ret : Int
deriving DecidableEq

/-- A slow phase: `was_slow_ = reason; slow_count_++;`. -/
def markSlow (s : modbusNode) (reason : String) : modbusNode :=
  { s with was_slow_ := reason, slow_count_ := s.slow_count_ + 1 }

/-- First check of `read_and_publish`, on the start time of the cycle:
`if (prevtime && prevtime - starttime > max_delay_) { ... }`. -/
def fullLoopCheck (s : modbusNode) (starttime : ℚ) : modbusNode :=
  if s.prevtime ≠ 0 ∧ s.prevtime - starttime > s.max_delay_ then
    markSlow s "Full modbus_io loop was slow."
  else s

/-- Method `int read_and_publish()`.  `t0 .. t3` are the values of the four calls of
`ros::Time::now().toSec()`, in the order of the calls; `rIn` and `rOut` are the replies to
the two register reads of `getData`. -/
def read_and_publish (hostBig : Bool) (s : modbusNode) (t0 t1 t2 t3 : ℚ)
    (rIn rOut : ReadReply) : CycleResult :=
  let starttime := t0
  let s1 := fullLoopCheck s starttime
  let s2 := getData hostBig s1 rIn rOut
  let endtime := t1
  let s3 := if endtime - starttime > s2.max_delay_ then
      markSlow s2 "Full modbus_interface loop was slow." else s2
  let s4 := { s3 with prevtime := starttime }
  let starttime := t2
  let published := [s4.reading_]
  let endtime := t3
  let s5 := if endtime - starttime > s4.max_delay_ then
      markSlow s4 "Full modbus_io loop was slow." else s4
  { node := s5, published := published, ret := 0 }

/-! ## The write services -/

/-- Request of `robotnik_msgs::set_digital_output`: `output` is an `int8`. -/
structure Request where
  output : Int
  value : Bool
deriving DecidableEq, Repr

/-- What a write service leaves behind: the node, the field `req.output` (the services
decrement it), `res.ret`, the returned `bool`, and the calls of `modbus_write_register`
as pairs (address, value). -/
structure WriteResult where
  node : modbusNode
  req_output : Int
  res_ret : Bool
  returned : Bool
  written : List (Int × Nat)
deriving DecidableEq

/-- Tail of both services: `modbus_write_register(mb_, addr, register_value)` answered
`iret`, the error report, then `res.ret = !(iret < 0); return res.ret;`. -/
def finishWrite (s : modbusNode) (req_output addr : Int) (register_value : Nat) (iret : Int) :
    WriteResult :=
  let s1 := if iret ≠ 1 then dealWithModbusError s else s
  let ret := if iret < 0 then false else true
  { node := s1, req_output := req_output, res_ret := ret, returned := ret,
    written := [(addr, register_value)] }

/-- Service `bool write_digital_output(Request &req, Response &res)`.

`uninit` is the indeterminate content of the local `register_value`, which the
all-outputs branch reads when `req.value` holds and `digital_outputs_` is neither 8 nor 16;
`iret` is the value returned by `modbus_write_register`.  The result is `none` where C++
leaves the shift `1 << req.output` undefined (shift count of 32 or more). -/
def write_digital_output (hostBig : Bool) (s : modbusNode) (req : Request) (uninit : Nat)
    (iret : Int) : Option WriteResult :=
  let out := req.output
  if out ≤ 0 then
    let register_value : Nat :=
      if req.value then
        if s.digital_outputs_ = 8 then 0x00FF
        else if s.digital_outputs_ = 16 then 0xFFFF
        else uninit % 65536
      else 0x0000
    let register_value := toUInt16 (switchEndianness hostBig s.big_endian_ (toInt16 register_value))
    some (finishWrite s req.output s.digital_outputs_addr_ register_value iret)
  else
    let req_output := req.output - 1
    if req_output > s.digital_outputs_ - 1 then
      some { node := s, req_output := req_output, res_ret := false, returned := false,
             written := [] }
    else if 32 ≤ req_output then none
    else
      let shift_bit : Nat := (1 <<< req_output.toNat) % 65536
      let register_value : Nat :=
        if req.value then s.dout_ ||| shift_bit
        else toUInt16 (Int.land (s.dout_ : Int) (Int.lnot (shift_bit : Int)))
      let register_value := toUInt16 (switchEndianness hostBig s.big_endian_ (toInt16 register_value))
      some (finishWrite s req_output s.digital_outputs_addr_ register_value iret)

/-- Service `bool write_digital_input(Request &req, Response &res)` ("Used for testing").
`iret` is the value returned by `modbus_write_register`; `none` as in
`write_digital_output`. -/
def write_digital_input (s : modbusNode) (req : Request) (iret : Int) : Option WriteResult :=
  let inp := req.output
  if inp ≤ 0 then
    let register_value : Nat := if req.value then 0xFF else 0x00
    some (finishWrite s req.output s.digital_inputs_addr_ register_value iret)
  else
    let req_output := req.output - 1
    if req_output > s.digital_inputs_ - 1 then
      some { node := s, req_output := req_output, res_ret := false, returned := false,
             written := [] }
    else if 32 ≤ req_output then none
    else
      let shift_bit : Nat := (1 <<< req_output.toNat) % 65536
      let register_value : Nat :=
        if req.value then s.din_ ||| shift_bit
        else toUInt16 (Int.land (s.din_ : Int) (Int.lnot (shift_bit : Int)))
      some (finishWrite s req_output s.digital_inputs_addr_ register_value iret)

/-! ## Auxiliary definitions for the statements -/

/-- Normalization of a register word: `switchEndianness` applied to the 16-bit word `w`,
read back as `uint16_t`. -/
def normalize (hostBig big_endian_ : Bool) (w : Nat) : Nat :=
  toUInt16 (switchEndianness hostBig big_endian_ (toInt16 w))

/-- The sizing established by the constructor: each channel array has as many elements as
its configured count. -/
def sized (s : modbusNode) : Prop :=
  s.reading_.digital_inputs.length = s.digital_inputs_.toNat ∧
  s.reading_.digital_outputs.length = s.digital_outputs_.toNat

instance sizedDecidable (s : modbusNode) : Decidable (sized s) := by
  unfold sized
  infer_instance

/-- Value of the `int16_t` that `getData` decodes after a read answered `r`. -/
def polled (hostBig : Bool) (s : modbusNode) (r : ReadReply) : Int :=
  switchEndianness hostBig s.big_endian_ (toInt16 (readRegister s r).tab_reg_0)

/-! ## Facts about the machine integers -/

theorem toUInt16_lt (z : Int) : toUInt16 z < 65536 := by
  unfold toUInt16
  omega

theorem toUInt16_natCast (n : Nat) : toUInt16 (n : Int) = n % 65536 := by
  unfold toUInt16
  omega

theorem toInt16_range (n : Nat) : -32768 ≤ toInt16 n ∧ toInt16 n < 32768 := by
  unfold toInt16
  split <;> omega

theorem toUInt16_toInt16 (n : Nat) : toUInt16 (toInt16 n) = n % 65536 := by
  unfold toUInt16 toInt16
  split <;> omega

theorem bswap16_lt (w : Nat) : bswap16 w < 65536 := by
  unfold bswap16
  omega

theorem bswap16_bswap16 (w : Nat) : bswap16 (bswap16 w) = w % 65536 := by
  unfold bswap16
  have ha : w % 256 < 256 := Nat.mod_lt _ (by decide)
  have hb : w / 256 % 256 < 256 := Nat.mod_lt _ (by decide)
  have hw : w % 65536 = (w / 256 % 256) * 256 + w % 256 := by omega
  generalize w % 256 = a at *
  generalize w / 256 % 256 = b at *
  have h1 : (a * 256 + b) % 256 = b := by omega
  have h2 : (a * 256 + b) / 256 % 256 = a := by omega
  rw [h1, h2, hw]

theorem bswap16_mod (w : Nat) : bswap16 (w % 65536) = bswap16 w := by
  unfold bswap16
  omega

theorem normalize_eq (hostBig big_endian_ : Bool) (w : Nat) :
    normalize hostBig big_endian_ w
      = if big_endian_ = hostBig then w % 65536 else bswap16 w := by
  unfold normalize switchEndianness htobe16 htole16
  cases big_endian_ <;> cases hostBig <;>
    simp [toUInt16_toInt16, bswap16_mod, Nat.mod_eq_of_lt (bswap16_lt _)]

theorem normalize_lt (hostBig big_endian_ : Bool) (w : Nat) :
    normalize hostBig big_endian_ w < 65536 := toUInt16_lt _

theorem normalize_normalize (hostBig big_endian_ : Bool) (w : Nat) :
    normalize hostBig big_endian_ (normalize hostBig big_endian_ w) = w % 65536 := by
  simp only [normalize_eq]
  split
  · simp
  · exact bswap16_bswap16 w

/-! ## Bits of an `int16_t` -/

theorem land_one_ne_zero (x : Int) : (Int.land x 1 != 0) = Int.testBit x 0 := by
  have key : ∀ y : Int, (∀ j, Int.testBit y (j + 1) = false) → (y != 0) = Int.testBit y 0 := by
    intro y hy
    cases y with
    | ofNat m =>
      have hm : m / 2 = 0 := by
        apply Nat.eq_of_testBit_eq
        intro i
        have := hy i
        simp only [Int.ofNat_eq_coe, Int.testBit] at this
        rw [Nat.zero_testBit, ← Nat.testBit_succ]
        exact this
      have h2 : m = 0 ∨ m = 1 := by omega
      rcases h2 with h | h <;> subst h <;> decide
    | negSucc m =>
      exfalso
      have h1 : ∀ j, Nat.testBit m (j + 1) = true := by
        intro j
        have := hy j
        simpa [Int.testBit] using this
      have h2 := h1 m
      have h3 : m < 2 ^ (m + 1) := lt_trans (Nat.lt_two_pow m) (Nat.pow_lt_pow_right (by decide) (Nat.lt_succ_self m))
      rw [Nat.testBit_lt_two_pow h3] at h2
      exact Bool.false_ne_true h2
  have h0 := key (Int.land x 1) (fun j => by
    rw [Int.testBit_land]
    have : Int.testBit 1 (j + 1) = false := by
      show Nat.testBit 1 (j + 1) = false
      rw [Nat.testBit_succ]
      exact Nat.zero_testBit j
    rw [this, Bool.and_false])
  rw [h0, Int.testBit_land]
  have : Int.testBit 1 0 = true := by decide
  rw [this, Bool.and_true]

theorem testBit_shiftRight_one (x : Int) (j : Nat) :
    Int.testBit (Int.shiftRight x 1) j = Int.testBit x (j + 1) := by
  cases x with
  | ofNat m =>
    show Nat.testBit (m >>> 1) j = Nat.testBit m (j + 1)
    rw [Nat.testBit_shiftRight, Nat.add_comm]
  | negSucc m =>
    show (!Nat.testBit (m >>> 1) j) = !Nat.testBit m (j + 1)
    rw [Nat.testBit_shiftRight, Nat.add_comm]

/-- For an `int16_t` value, bit `i < 16` is bit `i` of its unsigned conversion. -/
theorem testBit_int16_low (x : Int) (hlo : -32768 ≤ x) (hhi : x < 32768) (i : Nat)
    (hi : i < 16) : Int.testBit x i = Nat.testBit (toUInt16 x) i := by
  cases x with
  | ofNat m =>
    have hm : m < 65536 := by
      simp only [Int.ofNat_eq_coe] at hhi
      omega
    simp only [Int.ofNat_eq_coe, toUInt16_natCast, Nat.mod_eq_of_lt hm]
    rfl
  | negSucc m =>
    have hm : m < 2 ^ 16 := by
      have : Int.negSucc m = -((m : Int) + 1) := rfl
      omega
    have hu : toUInt16 (Int.negSucc m) = 2 ^ 16 - (m + 1) := by
      have : Int.negSucc m = -((m : Int) + 1) := rfl
      unfold toUInt16
      omega
    rw [hu, Nat.testBit_two_pow_sub_succ hm]
    simp [Int.testBit, hi]

/-- For an `int16_t` value, every bit `i ≥ 16` is the sign. -/
theorem testBit_int16_high (x : Int) (hlo : -32768 ≤ x) (hhi : x < 32768) (i : Nat)
    (hi : 16 ≤ i) : Int.testBit x i = decide (x < 0) := by
  cases x with
  | ofNat m =>
    have hm : m < 2 ^ i := by
      have h1 : m < 2 ^ 16 := by
        simp only [Int.ofNat_eq_coe] at hhi
        omega
      exact lt_of_lt_of_le h1 (Nat.pow_le_pow_right (by decide) hi)
    have : ¬ ((m : Int) < 0) := by omega
    simp only [Int.ofNat_eq_coe, this, decide_False]
    exact Nat.testBit_lt_two_pow hm
  | negSucc m =>
    have hm : m < 2 ^ i := by
      have h1 : m < 2 ^ 16 := by
        have : Int.negSucc m = -((m : Int) + 1) := rfl
        omega
      exact lt_of_lt_of_le h1 (Nat.pow_le_pow_right (by decide) hi)
    have hneg : Int.negSucc m < 0 := Int.negSucc_lt_zero m
    simp only [hneg, decide_True]
    show (!Nat.testBit m i) = true
    rw [Nat.testBit_lt_two_pow hm]
    rfl

/-- Sign of an `int16_t` value and bit 15 of its unsigned conversion. -/
theorem int16_sign_bit (x : Int) (hlo : -32768 ≤ x) (hhi : x < 32768) :
    decide (x < 0) = Nat.testBit (toUInt16 x) 15 := by
  rw [Nat.testBit_to_div_mod]
  by_cases h : x < 0
  · have hu : toUInt16 x / 32768 % 2 = 1 := by
      unfold toUInt16
      omega
    simp [h, hu]
  · have hu : toUInt16 x / 32768 % 2 = 0 := by
      unfold toUInt16
      omega
    simp [h, hu]

/-! ## The decode loop -/

theorem decodeLoop_length (k i : Nat) (x : Int) (data : List Bool) :
    (decodeLoop k i x data).length = data.length := by
  induction k generalizing i x data with
  | zero => rfl
  | succ k ih => simp [decodeLoop, ih]

theorem decodeLoop_getElem? (k i : Nat) (x : Int) (data : List Bool) (j : Nat) :
    (decodeLoop k i x data)[j]? =
      if i ≤ j ∧ j < i + k ∧ j < data.length then some (Int.testBit x (j - i)) else data[j]? := by
  induction k generalizing i x data with
  | zero =>
    have : ¬ (i ≤ j ∧ j < i + 0 ∧ j < data.length) := by omega
    simp only [decodeLoop, this, if_false]
  | succ k ih =>
    simp only [decodeLoop]
    rw [ih, List.length_set, List.getElem?_set, land_one_ne_zero, testBit_shiftRight_one]
    by_cases h1 : i + 1 ≤ j ∧ j < i + 1 + k ∧ j < data.length
    · have h2 : i ≤ j ∧ j < i + (k + 1) ∧ j < data.length := by omega
      have h3 : j - (i + 1) + 1 = j - i := by omega
      rw [if_pos h1, if_pos h2, h3]
    · rw [if_neg h1]
      by_cases h4 : i = j
      · subst h4
        by_cases h5 : i < data.length
        · have h2 : i ≤ i ∧ i < i + (k + 1) ∧ i < data.length := by omega
          simp [h5]
        · have h2 : ¬ (i ≤ i ∧ i < i + (k + 1) ∧ i < data.length) := by omega
          rw [if_pos rfl, if_neg h5, if_neg h2]
          exact (List.getElem?_eq_none (by omega)).symm
      · have h2 : ¬ (i ≤ j ∧ j < i + (k + 1) ∧ j < data.length) := by omega
        rw [if_neg h4, if_neg h2]

theorem init_sized (dout din ain aout : Int) (be : Bool) (tab0 : Nat) :
    sized (modbusNode.init dout din ain aout be tab0) := by
  simp [sized, modbusNode.init, resize]

theorem readRegister_eq (s : modbusNode) (r : ReadReply) :
    readRegister s r =
      { s with tab_reg_0 := if r.iret = 1 then r.word % 65536 else s.tab_reg_0 } := by
  unfold readRegister dealWithModbusError
  by_cases h : r.iret = 1 <;> simp [h]

theorem polled_ok (hostBig : Bool) (s : modbusNode) (r : ReadReply) (h : r.iret = 1) :
    toUInt16 (polled hostBig s r) = normalize hostBig s.big_endian_ r.word := by
  simp only [polled, readRegister_eq, h, if_true, normalize]
  congr 2
  unfold toInt16
  simp

theorem polled_range (hostBig : Bool) (s : modbusNode) (r : ReadReply) :
    -32768 ≤ polled hostBig s r ∧ polled hostBig s r < 32768 := by
  unfold polled switchEndianness
  split <;> exact toInt16_range _

theorem getData_inputs (hostBig : Bool) (s : modbusNode) (rIn rOut : ReadReply) :
    (getData hostBig s rIn rOut).reading_.digital_inputs =
      decodeLoop s.digital_inputs_.toNat 0 (polled hostBig s rIn) s.reading_.digital_inputs := by
  simp only [getData, polled, readRegister_eq]

theorem getData_outputs (hostBig : Bool) (s : modbusNode) (rIn rOut : ReadReply) :
    (getData hostBig s rIn rOut).reading_.digital_outputs =
      decodeLoop s.digital_outputs_.toNat 0
        (polled hostBig (readRegister s rIn) rOut) s.reading_.digital_outputs := by
  simp only [getData, polled, readRegister_eq]

theorem getData_inputs_getElem? (hostBig : Bool) (s : modbusNode) (rIn rOut : ReadReply)
    (hs : sized s) (j : Nat) :
    (getData hostBig s rIn rOut).reading_.digital_inputs[j]? =
      if j < s.digital_inputs_.toNat then some (Int.testBit (polled hostBig s rIn) j)
      else none := by
  rw [getData_inputs, decodeLoop_getElem?, hs.1]
  by_cases h : j < s.digital_inputs_.toNat
  · have h2 : 0 ≤ j ∧ j < 0 + s.digital_inputs_.toNat ∧ j < s.digital_inputs_.toNat := by omega
    rw [if_pos h, if_pos h2, Nat.sub_zero]
  · have h2 : ¬ (0 ≤ j ∧ j < 0 + s.digital_inputs_.toNat ∧ j < s.digital_inputs_.toNat) := by
      omega
    rw [if_neg h, if_neg h2]
    exact List.getElem?_eq_none (by have := hs.1; omega)

theorem getData_outputs_getElem? (hostBig : Bool) (s : modbusNode) (rIn rOut : ReadReply)
    (hs : sized s) (j : Nat) :
    (getData hostBig s rIn rOut).reading_.digital_outputs[j]? =
      if j < s.digital_outputs_.toNat then
        some (Int.testBit (polled hostBig (readRegister s rIn) rOut) j)
      else none := by
  rw [getData_outputs, decodeLoop_getElem?, hs.2]
  by_cases h : j < s.digital_outputs_.toNat
  · have h2 : 0 ≤ j ∧ j < 0 + s.digital_outputs_.toNat ∧ j < s.digital_outputs_.toNat := by
      omega
    rw [if_pos h, if_pos h2, Nat.sub_zero]
  · have h2 : ¬ (0 ≤ j ∧ j < 0 + s.digital_outputs_.toNat ∧ j < s.digital_outputs_.toNat) := by
      omega
    rw [if_neg h, if_neg h2]
    exact List.getElem?_eq_none (by have := hs.2; omega)

theorem readRegister_big_endian (s : modbusNode) (r : ReadReply) :
    (readRegister s r).big_endian_ = s.big_endian_ := by
  rw [readRegister_eq]

theorem getData_counts (hostBig : Bool) (s : modbusNode) (rIn rOut : ReadReply) :
    (getData hostBig s rIn rOut).digital_inputs_ = s.digital_inputs_ ∧
    (getData hostBig s rIn rOut).digital_outputs_ = s.digital_outputs_ := by
  simp only [getData, readRegister_eq, and_self]

theorem getData_sized (hostBig : Bool) (s : modbusNode) (rIn rOut : ReadReply)
    (hs : sized s) : sized (getData hostBig s rIn rOut) := by
  unfold sized
  rw [getData_inputs, getData_outputs, decodeLoop_length, decodeLoop_length,
    (getData_counts hostBig s rIn rOut).1, (getData_counts hostBig s rIn rOut).2]
  exact hs

/-! ## The polling cycle: lemmas -/

theorem fullLoopCheck_eq (s : modbusNode) (t : ℚ) :
    fullLoopCheck s t =
      { s with
        was_slow_ := if s.prevtime ≠ 0 ∧ s.prevtime - t > s.max_delay_ then
            "Full modbus_io loop was slow." else s.was_slow_
        slow_count_ := if s.prevtime ≠ 0 ∧ s.prevtime - t > s.max_delay_ then
            s.slow_count_ + 1 else s.slow_count_ } := by
  unfold fullLoopCheck markSlow
  split <;> rfl

theorem fullLoopCheck_sized (s : modbusNode) (t : ℚ) (hs : sized s) :
    sized (fullLoopCheck s t) := by
  rw [fullLoopCheck_eq]
  exact hs

theorem read_and_publish_published (hostBig : Bool) (s : modbusNode) (t0 t1 t2 t3 : ℚ)
    (rIn rOut : ReadReply) :
    (read_and_publish hostBig s t0 t1 t2 t3 rIn rOut).published =
      [(getData hostBig (fullLoopCheck s t0) rIn rOut).reading_] := by
  unfold read_and_publish markSlow
  simp only
  split <;> rfl

theorem read_and_publish_sized (hostBig : Bool) (s : modbusNode) (t0 t1 t2 t3 : ℚ)
    (rIn rOut : ReadReply) (hs : sized s) :
    sized (read_and_publish hostBig s t0 t1 t2 t3 rIn rOut).node := by
  have h := getData_sized hostBig _ rIn rOut (fullLoopCheck_sized s t0 hs)
  unfold read_and_publish markSlow
  simp only
  split <;> split <;> exact h

/-! ## Claims on the decoding -/

/-- C1: after a poll whose two reads succeeded, the published arrays have the configured
lengths (counts between 0 and 16) and channel `i` of each array is bit `i` of the normalized
word that was read for that direction, whatever the word (bit 15 included) and the
endianness flag. -/
theorem getData_decodes_channels (hostBig : Bool) (s : modbusNode) (t0 t1 t2 t3 : ℚ)
    (rIn rOut : ReadReply) (hs : sized s) (hIn : rIn.iret = 1) (hOut : rOut.iret = 1)
    (hni : 0 ≤ s.digital_inputs_ ∧ s.digital_inputs_ ≤ 16)
    (hno : 0 ≤ s.digital_outputs_ ∧ s.digital_outputs_ ≤ 16) :
    ∃ snap, (read_and_publish hostBig s t0 t1 t2 t3 rIn rOut).published = [snap] ∧
      (snap.digital_inputs.length : Int) = s.digital_inputs_ ∧
      (snap.digital_outputs.length : Int) = s.digital_outputs_ ∧
      (∀ i : Nat, (i : Int) < s.digital_inputs_ → snap.digital_inputs[i]? =
        some (Nat.testBit (normalize hostBig s.big_endian_ rIn.word) i)) ∧
      (∀ i : Nat, (i : Int) < s.digital_outputs_ → snap.digital_outputs[i]? =
        some (Nat.testBit (normalize hostBig s.big_endian_ rOut.word) i)) := by
  have hs1 : sized (fullLoopCheck s t0) := fullLoopCheck_sized s t0 hs
  have hs2 := getData_sized hostBig _ rIn rOut hs1
  have hc := getData_counts hostBig (fullLoopCheck s t0) rIn rOut
  have hf1 : (fullLoopCheck s t0).digital_inputs_ = s.digital_inputs_ := by
    rw [fullLoopCheck_eq]
  have hf2 : (fullLoopCheck s t0).digital_outputs_ = s.digital_outputs_ := by
    rw [fullLoopCheck_eq]
  have hf3 : (fullLoopCheck s t0).big_endian_ = s.big_endian_ := by
    rw [fullLoopCheck_eq]
  refine ⟨_, read_and_publish_published hostBig s t0 t1 t2 t3 rIn rOut, ?_, ?_, ?_, ?_⟩
  · rw [hs2.1, hc.1, hf1]
    omega
  · rw [hs2.2, hc.2, hf2]
    omega
  · intro i hi
    have hi2 : i < (fullLoopCheck s t0).digital_inputs_.toNat := by
      rw [hf1]
      omega
    rw [getData_inputs_getElem? hostBig _ rIn rOut hs1, if_pos hi2,
      testBit_int16_low _ (polled_range _ _ _).1 (polled_range _ _ _).2 i (by omega),
      polled_ok hostBig _ rIn hIn, hf3]
  · intro i hi
    have hi2 : i < (fullLoopCheck s t0).digital_outputs_.toNat := by
      rw [hf2]
      omega
    rw [getData_outputs_getElem? hostBig _ rIn rOut hs1, if_pos hi2,
      testBit_int16_low _ (polled_range _ _ _).1 (polled_range _ _ _).2 i (by omega),
      polled_ok hostBig _ rOut hOut, readRegister_big_endian, hf3]

/-- Instance of C1: counts 8 and 8, little-endian host and device, inputs word `0x8005`,
outputs word `0x00F0`. -/
theorem getData_decodes_channels_witness :
    ∃ snap, (read_and_publish false (modbusNode.init 8 8 0 100 false 0) 0 0 0 0
        ⟨1, 0x8005⟩ ⟨1, 0x00F0⟩).published = [snap] ∧
      (snap.digital_inputs.length : Int) = 8 ∧
      (snap.digital_outputs.length : Int) = 8 ∧
      (∀ i : Nat, (i : Int) < 8 → snap.digital_inputs[i]? =
        some (Nat.testBit (normalize false false 0x8005) i)) ∧
      (∀ i : Nat, (i : Int) < 8 → snap.digital_outputs[i]? =
        some (Nat.testBit (normalize false false 0x00F0) i)) :=
  getData_decodes_channels false (modbusNode.init 8 8 0 100 false 0) 0 0 0 0
    ⟨1, 0x8005⟩ ⟨1, 0x00F0⟩ (init_sized 8 8 0 100 false 0) rfl rfl
    ⟨by decide, by decide⟩ ⟨by decide, by decide⟩

/-- C9, as stated, fails: with 17 configured inputs and the word `0x8000` (bit 15 set),
channel 16 is decoded as true. -/
theorem getData_sign_extends_channel_16 :
    (getData false (modbusNode.init 17 17 0 100 false 0) ⟨1, 0x8000⟩ ⟨1, 0x8000⟩).reading_.digital_inputs[16]?
      = some true := by
  rw [getData_inputs_getElem? false _ _ _ (init_sized 17 17 0 100 false 0)]
  decide

/-- C9, amended: after successful reads, every channel of index 16 or more (below the
configured count) is decoded as bit 15 of the normalized word of its direction: the
arithmetic right shift of the `int16_t` replicates the sign.  Such a channel is false for
the words with bit 15 clear and true for the words with bit 15 set. -/
theorem getData_decode_past_width (hostBig : Bool) (s : modbusNode) (rIn rOut : ReadReply)
    (hs : sized s) (hIn : rIn.iret = 1) (hOut : rOut.iret = 1) (i : Nat) (hi : 16 ≤ i) :
    ((i : Int) < s.digital_inputs_ →
      (getData hostBig s rIn rOut).reading_.digital_inputs[i]? =
        some (Nat.testBit (normalize hostBig s.big_endian_ rIn.word) 15)) ∧
    ((i : Int) < s.digital_outputs_ →
      (getData hostBig s rIn rOut).reading_.digital_outputs[i]? =
        some (Nat.testBit (normalize hostBig s.big_endian_ rOut.word) 15)) := by
  have key : ∀ x : Int, -32768 ≤ x → x < 32768 →
      Int.testBit x i = Nat.testBit (toUInt16 x) 15 := by
    intro x h1 h2
    rw [testBit_int16_high x h1 h2 i hi, int16_sign_bit x h1 h2]
  constructor
  · intro hlt
    have hi2 : i < s.digital_inputs_.toNat := by omega
    rw [getData_inputs_getElem? hostBig s rIn rOut hs, if_pos hi2,
      key _ (polled_range _ _ _).1 (polled_range _ _ _).2, polled_ok hostBig s rIn hIn]
  · intro hlt
    have hi2 : i < s.digital_outputs_.toNat := by omega
    rw [getData_outputs_getElem? hostBig s rIn rOut hs, if_pos hi2,
      key _ (polled_range _ _ _).1 (polled_range _ _ _).2, polled_ok hostBig _ rOut hOut,
      readRegister_big_endian]

/-- Instance of the amended C9: 18 channels each way, inputs word `0x8000`, outputs word
`0x7FFF`, channel 17. -/
theorem getData_decode_past_width_witness :
    (((17 : Nat) : Int) < 18 →
      (getData false (modbusNode.init 18 18 0 100 false 0) ⟨1, 0x8000⟩ ⟨1, 0x7FFF⟩).reading_.digital_inputs[17]? =
        some (Nat.testBit (normalize false false 0x8000) 15)) ∧
    (((17 : Nat) : Int) < 18 →
      (getData false (modbusNode.init 18 18 0 100 false 0) ⟨1, 0x8000⟩ ⟨1, 0x7FFF⟩).reading_.digital_outputs[17]? =
        some (Nat.testBit (normalize false false 0x7FFF) 15)) :=
  getData_decode_past_width false (modbusNode.init 18 18 0 100 false 0) ⟨1, 0x8000⟩ ⟨1, 0x7FFF⟩
    (init_sized 18 18 0 100 false 0) rfl rfl 17 (by decide)

/-! ## The write services: lemmas -/

theorem shift_bit_eq (n : Nat) (hn : n < 16) : (1 <<< n) % 65536 = 2 ^ n := by
  rw [Nat.one_shiftLeft]
  have h : 2 ^ n < 2 ^ 16 := Nat.pow_lt_pow_right (by decide) hn
  exact Nat.mod_eq_of_lt h

/-- Bits of `dout_ | shift_bit`. -/
theorem testBit_set (d n j : Nat) (hn : n < 16) :
    Nat.testBit (d ||| (1 <<< n) % 65536) j = if j = n then true else Nat.testBit d j := by
  rw [shift_bit_eq n hn, Nat.testBit_or, Nat.testBit_two_pow]
  by_cases h : j = n
  · subst h
    simp
  · have h2 : ¬ n = j := fun e => h e.symm
    simp [h, h2]

theorem set_lt (d n : Nat) (hd : d < 65536) (hn : n < 16) :
    d ||| (1 <<< n) % 65536 < 65536 := by
  rw [shift_bit_eq n hn]
  have h : 2 ^ n < 2 ^ 16 := Nat.pow_lt_pow_right (by decide) hn
  exact @Nat.or_lt_two_pow _ _ 16 hd h

theorem land_lnot_natCast (m n : Nat) :
    Int.land (m : Int) (Int.lnot (n : Int)) = ((Nat.ldiff m n : Nat) : Int) := rfl

/-- Bits of `dout_ & ~shift_bit`, converted to `uint16_t`. -/
theorem testBit_clear (d n j : Nat) (hd : d < 65536) (hn : n < 16) :
    Nat.testBit (toUInt16 (Int.land (d : Int) (Int.lnot (((1 <<< n) % 65536 : Nat) : Int)))) j
      = if j = n then false else Nat.testBit d j := by
  rw [land_lnot_natCast, toUInt16_natCast, shift_bit_eq n hn]
  have h16 : (65536 : Nat) = 2 ^ 16 := by norm_num
  rw [h16, Nat.testBit_mod_two_pow, Nat.testBit_ldiff, Nat.testBit_two_pow]
  by_cases h : j = n
  · subst h
    simp
  · have h2 : ¬ n = j := fun e => h e.symm
    by_cases h3 : j < 16
    · simp [h, h2, h3]
    · have h4 : d < 2 ^ j := lt_of_lt_of_le hd (by
        rw [h16]
        exact Nat.pow_le_pow_right (by decide) (by omega))
      simp [h, h3, Nat.testBit_lt_two_pow h4]

theorem write_digital_output_single (hostBig : Bool) (s : modbusNode) (k : Int) (v : Bool)
    (uninit : Nat) (iret : Int) (hk1 : 1 ≤ k) (hk : k ≤ s.digital_outputs_) (hk32 : k ≤ 32) :
    write_digital_output hostBig s ⟨k, v⟩ uninit iret =
      some (finishWrite s (k - 1) s.digital_outputs_addr_
        (normalize hostBig s.big_endian_
          (if v then s.dout_ ||| (1 <<< (k - 1).toNat) % 65536
           else toUInt16 (Int.land (s.dout_ : Int)
             (Int.lnot (((1 <<< (k - 1).toNat) % 65536 : Nat) : Int))))) iret) := by
  have h1 : ¬ k ≤ 0 := by omega
  have h2 : ¬ k - 1 > s.digital_outputs_ - 1 := by omega
  have h3 : ¬ (32 : Int) ≤ k - 1 := by omega
  simp only [write_digital_output, h1, h2, h3, if_false, normalize]

theorem write_digital_input_single (s : modbusNode) (k : Int) (v : Bool)
    (iret : Int) (hk1 : 1 ≤ k) (hk : k ≤ s.digital_inputs_) (hk32 : k ≤ 32) :
    write_digital_input s ⟨k, v⟩ iret =
      some (finishWrite s (k - 1) s.digital_inputs_addr_
          (if v then s.din_ ||| (1 <<< (k - 1).toNat) % 65536
           else toUInt16 (Int.land (s.din_ : Int)
             (Int.lnot (((1 <<< (k - 1).toNat) % 65536 : Nat) : Int)))) iret) := by
  have h1 : ¬ k ≤ 0 := by omega
  have h2 : ¬ k - 1 > s.digital_inputs_ - 1 := by omega
  have h3 : ¬ (32 : Int) ≤ k - 1 := by omega
  simp only [write_digital_input, h1, h2, h3, if_false]

theorem finishWrite_eq (s : modbusNode) (o a : Int) (w : Nat) (iret : Int) :
    finishWrite s o a w iret =
      { node := s, req_output := o, res_ret := !decide (iret < 0),
        returned := !decide (iret < 0), written := [(a, w)] } := by
  unfold finishWrite dealWithModbusError
  by_cases h : iret < 0 <;> simp [h]

/-! ## Claims on the write services -/

/-- C2: a single-channel request `k` in `[1, n]`, `n ≤ 16`, makes `write_digital_output`
hand one word `W` to `modbus_write_register`, and the normalization of `W` is `dout_` with
bit `k - 1` equal to the requested value and the other fifteen bits unchanged. -/
theorem write_digital_output_read_modify_write (hostBig : Bool) (s : modbusNode) (k : Int)
    (v : Bool) (uninit : Nat) (iret : Int) (hd : s.dout_ < 65536)
    (hn : s.digital_outputs_ ≤ 16) (hk1 : 1 ≤ k) (hk : k ≤ s.digital_outputs_) :
    ∃ r W, write_digital_output hostBig s ⟨k, v⟩ uninit iret = some r ∧
      r.written = [(s.digital_outputs_addr_, W)] ∧ W < 65536 ∧
      normalize hostBig s.big_endian_ W < 65536 ∧
      ∀ j : Nat, j < 16 → Nat.testBit (normalize hostBig s.big_endian_ W) j =
        if (j : Int) = k - 1 then v else Nat.testBit s.dout_ j := by
  have hidx : (k - 1).toNat < 16 := by omega
  refine ⟨_, normalize hostBig s.big_endian_
      (if v then s.dout_ ||| (1 <<< (k - 1).toNat) % 65536
       else toUInt16 (Int.land (s.dout_ : Int)
         (Int.lnot (((1 <<< (k - 1).toNat) % 65536 : Nat) : Int)))),
    write_digital_output_single hostBig s k v uninit iret hk1 hk (by omega), ?_,
    normalize_lt _ _ _, normalize_lt _ _ _, ?_⟩
  · rw [finishWrite_eq]
  · intro j hj
    rw [normalize_normalize]
    have hjk : ((j : Int) = k - 1) ↔ j = (k - 1).toNat := by omega
    cases v with
    | true =>
      simp only [if_true]
      rw [Nat.mod_eq_of_lt (set_lt _ _ hd hidx), testBit_set _ _ _ hidx]
      simp only [hjk]
    | false =>
      simp only [Bool.false_eq_true, if_false]
      rw [Nat.mod_eq_of_lt (toUInt16_lt _), testBit_clear _ _ _ hd hidx]
      simp only [hjk]

/-- Instance of C2: 8 outputs, `dout_ = 0x0001`, request (3, true), big-endian device on a
little-endian host. -/
theorem write_digital_output_read_modify_write_witness :
    ∃ r W, write_digital_output false
        { modbusNode.init 8 8 0 100 true 0 with dout_ := 1 } ⟨3, true⟩ 0 1 = some r ∧
      r.written = [(100, W)] ∧ W < 65536 ∧
      normalize false true W < 65536 ∧
      ∀ j : Nat, j < 16 → Nat.testBit (normalize false true W) j =
        if (j : Int) = 3 - 1 then true else Nat.testBit 1 j :=
  write_digital_output_read_modify_write false
    { modbusNode.init 8 8 0 100 true 0 with dout_ := 1 } 3 true 0 1
    (by decide) (by decide) (by decide) (by decide)

/-- C3: a request for a channel number above the configured count (count not negative) is
rejected by both services: `res.ret` and the returned value are false, no register write is
issued, and the node (with `din_` and `dout_`) is unchanged. -/
theorem write_out_of_range_rejected (hostBig : Bool) (s : modbusNode) (k : Int) (v : Bool)
    (uninit : Nat) (iret : Int) (_hk : k ≤ 127) :
    (0 ≤ s.digital_outputs_ → s.digital_outputs_ < k →
      write_digital_output hostBig s ⟨k, v⟩ uninit iret =
        some { node := s, req_output := k - 1, res_ret := false, returned := false,
               written := [] }) ∧
    (0 ≤ s.digital_inputs_ → s.digital_inputs_ < k →
      write_digital_input s ⟨k, v⟩ iret =
        some { node := s, req_output := k - 1, res_ret := false, returned := false,
               written := [] }) := by
  constructor
  · intro h0 hlt
    have h1 : ¬ k ≤ 0 := by omega
    have h2 : k - 1 > s.digital_outputs_ - 1 := by omega
    simp only [write_digital_output, h1, h2, if_false, if_true]
  · intro h0 hlt
    have h1 : ¬ k ≤ 0 := by omega
    have h2 : k - 1 > s.digital_inputs_ - 1 := by omega
    simp only [write_digital_input, h1, h2, if_false, if_true]

/-- Instance of C3: count 8 in both directions, request (9, true). -/
theorem write_out_of_range_rejected_witness :
    ((0 : Int) ≤ 8 → (8 : Int) < 9 →
      write_digital_output false (modbusNode.init 8 8 0 100 false 0) ⟨9, true⟩ 0 1 =
        some { node := modbusNode.init 8 8 0 100 false 0, req_output := 9 - 1,
               res_ret := false, returned := false, written := [] }) ∧
    ((0 : Int) ≤ 8 → (8 : Int) < 9 →
      write_digital_input (modbusNode.init 8 8 0 100 false 0) ⟨9, true⟩ 1 =
        some { node := modbusNode.init 8 8 0 100 false 0, req_output := 9 - 1,
               res_ret := false, returned := false, written := [] }) :=
  write_out_of_range_rejected false (modbusNode.init 8 8 0 100 false 0) 9 true 0 1
    (by decide)

/-- C4: for channel number 0 the word handed to `modbus_write_register` is the
normalization of `0x00FF` (count 8, value true), of `0xFFFF` (count 16, value true) and of
`0x0000` (value false, count 8 or 16), whatever the cached `dout_` is. -/
theorem write_digital_output_all_channels (hostBig : Bool) (s : modbusNode) (d uninit : Nat)
    (iret : Int) :
    (s.digital_outputs_ = 8 →
      (write_digital_output hostBig { s with dout_ := d } ⟨0, true⟩ uninit iret).map
          WriteResult.written
        = some [(s.digital_outputs_addr_, normalize hostBig s.big_endian_ 0x00FF)]) ∧
    (s.digital_outputs_ = 16 →
      (write_digital_output hostBig { s with dout_ := d } ⟨0, true⟩ uninit iret).map
          WriteResult.written
        = some [(s.digital_outputs_addr_, normalize hostBig s.big_endian_ 0xFFFF)]) ∧
    (s.digital_outputs_ = 8 ∨ s.digital_outputs_ = 16 →
      (write_digital_output hostBig { s with dout_ := d } ⟨0, false⟩ uninit iret).map
          WriteResult.written
        = some [(s.digital_outputs_addr_, normalize hostBig s.big_endian_ 0x0000)]) := by
  refine ⟨?_, ?_, ?_⟩
  · intro h
    simp [write_digital_output, h, finishWrite_eq, normalize]
  · intro h
    simp [write_digital_output, h, finishWrite_eq, normalize]
  · intro _
    simp [write_digital_output, finishWrite_eq, normalize]

/-- Instance of C4: counts 8 and 16 through the constructor state, cached value `0x1234`. -/
theorem write_digital_output_all_channels_witness :
    (write_digital_output false { modbusNode.init 8 8 0 100 false 0 with dout_ := 0x1234 }
        ⟨0, true⟩ 0 1).map WriteResult.written = some [(100, normalize false false 0x00FF)] ∧
    (write_digital_output false { modbusNode.init 16 8 0 100 false 0 with dout_ := 0x1234 }
        ⟨0, true⟩ 0 1).map WriteResult.written = some [(100, normalize false false 0xFFFF)] ∧
    (write_digital_output false { modbusNode.init 8 8 0 100 false 0 with dout_ := 0x1234 }
        ⟨0, false⟩ 0 1).map WriteResult.written = some [(100, normalize false false 0x0000)] :=
  ⟨(write_digital_output_all_channels false (modbusNode.init 8 8 0 100 false 0) 0x1234 0 1).1 rfl,
   (write_digital_output_all_channels false (modbusNode.init 16 8 0 100 false 0) 0x1234 0 1).2.1
     rfl,
   (write_digital_output_all_channels false (modbusNode.init 8 8 0 100 false 0) 0x1234 0 1).2.2
     (Or.inl rfl)⟩

/-- C5, as stated, fails: with 4 configured outputs the all-channels request with value
false is not rejected; the word `0x0000` is written to register 100 and the service
returns true. -/
theorem all_outputs_off_accepted_with_count_4 :
    (write_digital_output false (modbusNode.init 4 8 0 100 false 0) ⟨0, false⟩ 0 1).map
        (fun r => (r.returned, r.res_ret, r.written))
      = some (true, true, [(100, 0)]) := by
  decide

/-- C5, amended: for every configured count, those other than 8 and 16 included, the
all-channels request with value false writes `0x0000` to the outputs register, reports the
outcome of that write (false exactly when `modbus_write_register` returned a negative
value) and leaves the node unchanged. -/
theorem write_digital_output_unsupported_count (hostBig : Bool) (s : modbusNode)
    (uninit : Nat) (iret : Int) :
    write_digital_output hostBig s ⟨0, false⟩ uninit iret =
      some { node := s, req_output := 0, res_ret := !decide (iret < 0),
             returned := !decide (iret < 0), written := [(s.digital_outputs_addr_, 0)] } := by
  have hz : toUInt16 (switchEndianness hostBig s.big_endian_ (toInt16 0)) = 0 := by
    have := normalize_eq hostBig s.big_endian_ 0
    unfold normalize at this
    rw [this]
    split <;> rfl
  simp [write_digital_output, finishWrite_eq, hz]

/-- C7 fails on the code.  With 16 channels each way and cached value 0, the all-channels
request with value true makes `write_digital_output` write `0xFFFF` and
`write_digital_input` write `0x00FF`; with a big-endian device on a little-endian host and
8 channels, the request (1, true) makes `write_digital_output` write `0x0100` and
`write_digital_input` write `0x0001`. -/
theorem write_digital_input_diverges :
    (write_digital_output false (modbusNode.init 16 16 0 100 false 0) ⟨0, true⟩ 0 1).map
        (fun r => r.written.map Prod.snd) = some [0xFFFF] ∧
    (write_digital_input (modbusNode.init 16 16 0 100 false 0) ⟨0, true⟩ 1).map
        (fun r => r.written.map Prod.snd) = some [0x00FF] ∧
    (write_digital_output false (modbusNode.init 8 8 0 100 true 0) ⟨1, true⟩ 0 1).map
        (fun r => r.written.map Prod.snd) = some [0x0100] ∧
    (write_digital_input (modbusNode.init 8 8 0 100 true 0) ⟨1, true⟩ 1).map
        (fun r => r.written.map Prod.snd) = some [0x0001] := by
  decide

/-- C8, as stated, fails: in the constructor state (no poll yet) the request (1, true) is
accepted by both services, which write the word 1 and return true. -/
theorem first_write_accepted_without_poll :
    (write_digital_output false (modbusNode.init 8 8 0 100 false 0) ⟨1, true⟩ 0 1).map
        (fun r => (r.returned, r.written)) = some (true, [(100, 1)]) ∧
    (write_digital_input (modbusNode.init 8 8 0 100 false 0) ⟨1, true⟩ 1).map
        (fun r => (r.returned, r.written)) = some (true, [(0, 1)]) := by
  decide

/-- C8, amended: in the state left by the constructor (`din_ = dout_ = 0`, no poll yet), a
request for a channel `k` in `[1, count]` (`k ≤ 32`, the range in which the shift is
defined) is not rejected.  `write_digital_output` writes the normalization of
`(1 << (k-1)) mod 2^16` for value true and of 0 for value false; `write_digital_input`
writes these words without normalization; both report the outcome of the write and leave
the node unchanged. -/
theorem write_before_first_poll (hostBig : Bool) (dout din ain aout : Int) (be : Bool)
    (tab0 : Nat) (k : Int) (v : Bool) (uninit : Nat) (iret : Int)
    (hk1 : 1 ≤ k) (hk32 : k ≤ 32) :
    (k ≤ dout →
      write_digital_output hostBig (modbusNode.init dout din ain aout be tab0) ⟨k, v⟩ uninit iret
        = some { node := modbusNode.init dout din ain aout be tab0, req_output := k - 1,
                 res_ret := !decide (iret < 0), returned := !decide (iret < 0),
                 written := [(aout, normalize hostBig be
                   (if v then (1 <<< (k - 1).toNat) % 65536 else 0))] }) ∧
    (k ≤ din →
      write_digital_input (modbusNode.init dout din ain aout be tab0) ⟨k, v⟩ iret
        = some { node := modbusNode.init dout din ain aout be tab0, req_output := k - 1,
                 res_ret := !decide (iret < 0), returned := !decide (iret < 0),
                 written := [(ain, if v then (1 <<< (k - 1).toNat) % 65536 else 0)] }) := by
  have hclr : ∀ n : Nat, toUInt16 (Int.land ((0 : Nat) : Int) (Int.lnot (n : Int))) = 0 := by
    intro n
    rw [land_lnot_natCast, toUInt16_natCast]
    have : Nat.ldiff 0 n = 0 := by
      apply Nat.eq_of_testBit_eq
      intro i
      rw [Nat.testBit_ldiff, Nat.zero_testBit, Bool.false_and]
    rw [this]
  constructor
  · intro hk
    rw [write_digital_output_single hostBig _ k v uninit iret hk1 hk hk32, finishWrite_eq]
    cases v
    · simp only [Bool.false_eq_true, if_false]
      have h0 : (modbusNode.init dout din ain aout be tab0).dout_ = 0 := rfl
      rw [h0, hclr]
      rfl
    · simp only [if_true]
      have h0 : (modbusNode.init dout din ain aout be tab0).dout_ = 0 := rfl
      rw [h0, Nat.zero_or]
      rfl
  · intro hk
    rw [write_digital_input_single _ k v iret hk1 hk hk32, finishWrite_eq]
    cases v
    · simp only [Bool.false_eq_true, if_false]
      have h0 : (modbusNode.init dout din ain aout be tab0).din_ = 0 := rfl
      rw [h0, hclr]
      rfl
    · simp only [if_true]
      have h0 : (modbusNode.init dout din ain aout be tab0).din_ = 0 := rfl
      rw [h0, Nat.zero_or]
      rfl

/-- Instance of the amended C8: 8 channels each way, request (3, true), the write succeeds. -/
theorem write_before_first_poll_witness :
    ((3 : Int) ≤ 8 →
      write_digital_output false (modbusNode.init 8 8 0 100 false 0) ⟨3, true⟩ 0 1
        = some { node := modbusNode.init 8 8 0 100 false 0, req_output := 3 - 1,
                 res_ret := !decide ((1 : Int) < 0), returned := !decide ((1 : Int) < 0),
                 written := [(100, normalize false false
                   (if true then (1 <<< ((3 : Int) - 1).toNat) % 65536 else 0))] }) ∧
    ((3 : Int) ≤ 8 →
      write_digital_input (modbusNode.init 8 8 0 100 false 0) ⟨3, true⟩ 1
        = some { node := modbusNode.init 8 8 0 100 false 0, req_output := 3 - 1,
                 res_ret := !decide ((1 : Int) < 0), returned := !decide ((1 : Int) < 0),
                 written := [(0, if true then (1 <<< ((3 : Int) - 1).toNat) % 65536 else 0)] }) :=
  write_before_first_poll false 8 8 0 100 false 0 3 true 0 1 (by decide) (by decide)

/-! ## Claims on the polling cycle -/

theorem read_and_publish_ret (hostBig : Bool) (s : modbusNode) (t0 t1 t2 t3 : ℚ)
    (rIn rOut : ReadReply) : (read_and_publish hostBig s t0 t1 t2 t3 rIn rOut).ret = 0 := rfl

/-- With a clock that does not run backwards and a delay bound that is not negative, the
first check of `read_and_publish` never fires. -/
theorem fullLoopCheck_of_le (s : modbusNode) (t : ℚ) (hclock : s.prevtime ≤ t)
    (hT : 0 ≤ s.max_delay_) : fullLoopCheck s t = s := by
  unfold fullLoopCheck
  have h : ¬ (s.prevtime ≠ 0 ∧ s.prevtime - t > s.max_delay_) := by
    rintro ⟨_, h2⟩
    have h3 : s.prevtime - t ≤ 0 := sub_nonpos.mpr hclock
    exact absurd (lt_of_lt_of_le h2 h3) (not_lt.mpr hT)
  rw [if_neg h]

/-- C6 fails on the code: whatever the two reads returned, `read_and_publish` returns 0 and
publishes one snapshot.  In the first cycle after construction with both reads failing
(`-1`), 8 channels each way and `tab_reg_[0]` holding 0, it returns 0 and publishes the
snapshot decoded from the word that was never read. -/
theorem read_and_publish_ignores_read_failure :
    (∀ (hostBig : Bool) (s : modbusNode) (t0 t1 t2 t3 : ℚ) (rIn rOut : ReadReply),
      (read_and_publish hostBig s t0 t1 t2 t3 rIn rOut).ret = 0 ∧
      (read_and_publish hostBig s t0 t1 t2 t3 rIn rOut).published.length = 1) ∧
    (read_and_publish false (modbusNode.init 8 8 0 100 false 0) 100 100 100 100
        ⟨-1, 0⟩ ⟨-1, 0⟩).ret = 0 ∧
    (read_and_publish false (modbusNode.init 8 8 0 100 false 0) 100 100 100 100
        ⟨-1, 0⟩ ⟨-1, 0⟩).published
      = [⟨List.replicate 8 false, List.replicate 8 false⟩] := by
  refine ⟨fun hostBig s t0 t1 t2 t3 rIn rOut => ⟨rfl, ?_⟩, rfl, ?_⟩
  · rw [read_and_publish_published]
    rfl
  · rw [read_and_publish_published, fullLoopCheck_eq]
    decide

/-- C10 fails on the code: the previous cycle started at 100 s, this one starts at 101 s
(a full cycle of 1 s against `max_delay_ = 0.1` s), and the first check changes neither
`slow_count_` nor `was_slow_`; with the other two phases fast, the whole call leaves
`slow_count_ = 0` and `was_slow_` empty. -/
theorem read_and_publish_full_loop_not_detected :
    (fullLoopCheck { modbusNode.init 8 8 0 100 false 0 with prevtime := 100 } 101).slow_count_
      = 0 ∧
    (fullLoopCheck { modbusNode.init 8 8 0 100 false 0 with prevtime := 100 } 101).was_slow_
      = "" ∧
    (read_and_publish false { modbusNode.init 8 8 0 100 false 0 with prevtime := 100 }
      101 (101 + 1 / 100) (101 + 1 / 100) (101 + 2 / 100) ⟨1, 5⟩ ⟨1, 3⟩).node.slow_count_ = 0 ∧
    (read_and_publish false { modbusNode.init 8 8 0 100 false 0 with prevtime := 100 }
      101 (101 + 1 / 100) (101 + 1 / 100) (101 + 2 / 100) ⟨1, 5⟩ ⟨1, 3⟩).node.was_slow_ = "" := by
  refine ⟨?_, ?_, ?_, ?_⟩
  · norm_num [fullLoopCheck, markSlow, modbusNode.init]
  · norm_num [fullLoopCheck, markSlow, modbusNode.init]
  · norm_num [read_and_publish, fullLoopCheck, markSlow, modbusNode.init, getData,
      readRegister_eq]
  · norm_num [read_and_publish, fullLoopCheck, markSlow, modbusNode.init, getData,
      readRegister_eq]

end Robotnik
